import Mathlib

/-!
Verification of the Black-Scholes option pricer in
`src/options/black_scholes.rs` of the quant_finance crate.

The Rust code computes with IEEE `f64`.  We embed `f64` shallowly as an
inductive type `F64` with a NaN value, two infinities and finite values
carried by real numbers.  Finite arithmetic is idealised as exact real
arithmetic (no rounding, no overflow or underflow, no signed zero); the
special-value semantics of NaN and the infinities (propagation through
arithmetic, comparisons that are false on NaN, `abs`, `signum`, `max`,
`exp`, `ln`, `sqrt`) follows IEEE 754 as implemented by Rust `f64`.
-/

set_option maxHeartbeats 1600000

noncomputable section
open Classical

/-- Shallow model of an IEEE double: NaN, an infinity with a sign
(`true` = positive), or a finite value idealised as a real number. -/
inductive F64 where
  | nan : F64
  | inf : Bool → F64
  | fin : ℝ → F64
deriving DecidableEq

namespace F64

/-- Rust `f64::is_finite`. -/
def is_finite : F64 → Bool
  | fin _ => true
  | _ => false

/-- IEEE negation. -/
def neg : F64 → F64
  | nan => nan
  | inf s => inf (!s)
  | fin x => fin (-x)

/-- Rust `f64::abs`. -/
def abs : F64 → F64
  | nan => nan
  | inf _ => inf true
  | fin x => fin |x|

/-- IEEE addition (without signed zero). -/
def add : F64 → F64 → F64
  | nan, _ => nan
  | _, nan => nan
  | inf a, inf b => if a = b then inf a else nan
  | inf a, fin _ => inf a
  | fin _, inf b => inf b
  | fin x, fin y => fin (x + y)

/-- IEEE subtraction, as addition of the negation. -/
def sub (x y : F64) : F64 := add x (neg y)

/-- IEEE multiplication: infinity times zero is NaN, otherwise signs
combine. -/
def mul : F64 → F64 → F64
  | nan, _ => nan
  | _, nan => nan
  | inf a, inf b => inf (a = b)
  | inf a, fin y => if y = 0 then nan else if 0 < y then inf a else inf (!a)
  | fin x, inf b => if x = 0 then nan else if 0 < x then inf b else inf (!b)
  | fin x, fin y => fin (x * y)

/-- IEEE division: infinity over infinity is NaN, a finite value over an
infinity is zero, a nonzero finite value over zero is an infinity. -/
def div : F64 → F64 → F64
  | nan, _ => nan
  | _, nan => nan
  | inf _, inf _ => nan
  | inf a, fin y => if 0 ≤ y then inf a else inf (!a)
  | fin _, inf _ => fin 0
  | fin x, fin y =>
      if y = 0 then (if x = 0 then nan else if 0 < x then inf true else inf false)
      else fin (x / y)

/-- Rust `f64::exp`. -/
def exp : F64 → F64
  | nan => nan
  | inf true => inf true
  | inf false => fin 0
  | fin x => fin (Real.exp x)

/-- Rust `f64::ln`: NaN on negative arguments, negative infinity at zero. -/
def ln : F64 → F64
  | nan => nan
  | inf true => inf true
  | inf false => nan
  | fin x => if 0 < x then fin (Real.log x) else if x = 0 then inf false else nan

/-- Rust `f64::sqrt`: NaN on negative arguments. -/
def sqrt : F64 → F64
  | nan => nan
  | inf true => inf true
  | inf false => nan
  | fin x => if 0 ≤ x then fin (Real.sqrt x) else nan

/-- Rust `f64::max`: if one operand is NaN the other is returned. -/
def max : F64 → F64 → F64
  | nan, y => y
  | x, nan => x
  | inf true, _ => inf true
  | _, inf true => inf true
  | inf false, y => y
  | x, inf false => x
  | fin x, fin y => fin (Max.max x y)

/-- Rust `f64::signum`: NaN on NaN, otherwise 1 or -1 by sign (in this
model without signed zero, zero has positive sign). -/
def signum : F64 → F64
  | nan => nan
  | inf s => fin (if s then 1 else -1)
  | fin x => fin (if 0 ≤ x then 1 else -1)

/-- Rust strict order on doubles: false whenever an operand is NaN. -/
def lt : F64 → F64 → Prop
  | nan, _ => False
  | _, nan => False
  | inf a, inf b => a = false ∧ b = true
  | inf a, fin _ => a = false
  | fin _, inf b => b = true
  | fin x, fin y => x < y

/-- Rust non-strict order on doubles: false whenever an operand is NaN. -/
def le : F64 → F64 → Prop
  | nan, _ => False
  | _, nan => False
  | inf a, inf b => a = b ∨ (a = false ∧ b = true)
  | inf a, fin _ => a = false
  | fin _, inf b => b = true
  | fin x, fin y => x ≤ y

end F64

/-- The error enum of `src/common/types.rs`. -/
inductive FinanceError where
  | InvalidInterestRate : FinanceError
  | InvalidPeriods : FinanceError
  | InvalidMonetaryValue : FinanceError
  | DivisionByZero : FinanceError
  | InvalidInput : FinanceError
deriving DecidableEq

/-- The option kind enum of `src/common/types.rs`. -/
inductive OptionType where
  | Call : OptionType
  | Put : OptionType
deriving DecidableEq

/-- The result alias of `src/common/types.rs`. -/
abbrev FinanceResult (α : Type) := Except FinanceError α

/-- Constant `EPS_TIME` of `black_scholes.rs`. -/
def EPS_TIME : ℝ := 1e-12

/-- Constant `EPS_VOL` of `black_scholes.rs`. -/
def EPS_VOL : ℝ := 1e-12

/-- Function `normal_pdf` of `black_scholes.rs`:
`(-0.5 * x * x).exp() / (2.0 * PI).sqrt()`. -/
def normal_pdf (x : F64) : F64 :=
  F64.div (F64.exp (F64.mul (F64.mul (F64.fin (-0.5)) x) x))
    (F64.sqrt (F64.mul (F64.fin 2) (F64.fin Real.pi)))

/-- Function `normal_cdf` of `black_scholes.rs`: the Abramowitz-Stegun
7.1.26 approximation, computed on `abs x` and reflected for negative
arguments. -/
def normal_cdf (x : F64) : F64 :=
  let b1 : F64 := .fin 0.319381530
  let b2 : F64 := .fin (-0.356563782)
  let b3 : F64 := .fin 1.781477937
  let b4 : F64 := .fin (-1.821255978)
  let b5 : F64 := .fin 1.330274429
  let p : F64 := .fin 0.2316419
  let t := F64.div (.fin 1) (F64.add (.fin 1) (F64.mul p x.abs))
  let poly := F64.mul (F64.add (F64.mul (F64.add (F64.mul (F64.add
    (F64.mul (F64.add (F64.mul b5 t) b4) t) b3) t) b2) t) b1) t
  let approx := F64.sub (.fin 1) (F64.mul (normal_pdf x.abs) poly)
  if F64.le (.fin 0) x then approx else F64.sub (.fin 1) approx

/-- Function `validate_inputs` of `black_scholes.rs`. -/
def validate_inputs (s0 k t r sigma : F64) : FinanceResult Unit :=
  if !s0.is_finite || !k.is_finite || !t.is_finite || !r.is_finite || !sigma.is_finite then
    .error FinanceError.InvalidMonetaryValue
  else if F64.le s0 (.fin 0) ∨ F64.le k (.fin 0) then
    .error FinanceError.InvalidMonetaryValue
  else if F64.lt t (.fin 0) then
    .error FinanceError.InvalidPeriods
  else if F64.lt sigma (.fin 0) then
    .error FinanceError.InvalidInterestRate
  else
    .ok ()

/-- Function `d1_d2` of `black_scholes.rs`. -/
def d1_d2 (s0 k t r sigma : F64) : FinanceResult (F64 × F64) :=
  match validate_inputs s0 k t r sigma with
  | .error e => .error e
  | .ok _ =>
    if F64.lt t (.fin EPS_TIME) then
      let sign := (F64.sub s0 k).signum
      let v := if F64.lt (.fin 0) sign then F64.inf true
        else if F64.lt sign (.fin 0) then F64.inf false else F64.fin 0
      .ok (v, v)
    else if F64.lt sigma (.fin EPS_VOL) then
      let num := F64.add (F64.div s0 k).ln (F64.mul r t)
      let v := if F64.lt (.fin 0) num then F64.inf true
        else if F64.lt num (.fin 0) then F64.inf false else F64.fin 0
      .ok (v, v)
    else
      let ln_sk := (F64.div s0 k).ln
      let sqrt_t := t.sqrt
      let sigma_sqrt_t := F64.mul sigma sqrt_t
      let d1 := F64.div (F64.add ln_sk (F64.mul (F64.add r
        (F64.mul (F64.mul (.fin 0.5) sigma) sigma)) t)) sigma_sqrt_t
      let d2 := F64.sub d1 sigma_sqrt_t
      .ok (d1, d2)

/-- Function `call_price` of `black_scholes.rs`. -/
def call_price (s0 k t r sigma : F64) : FinanceResult F64 :=
  match validate_inputs s0 k t r sigma with
  | .error e => .error e
  | .ok _ =>
    if F64.lt t (.fin EPS_TIME) then
      .ok ((F64.sub s0 k).max (.fin 0))
    else
      match d1_d2 s0 k t r sigma with
      | .error e => .error e
      | .ok (d1, d2) =>
        let df := (F64.mul r.neg t).exp
        .ok (F64.sub (F64.mul s0 (normal_cdf d1)) (F64.mul (F64.mul k df) (normal_cdf d2)))

/-- Function `put_price` of `black_scholes.rs`. -/
def put_price (s0 k t r sigma : F64) : FinanceResult F64 :=
  match validate_inputs s0 k t r sigma with
  | .error e => .error e
  | .ok _ =>
    if F64.lt t (.fin EPS_TIME) then
      .ok ((F64.sub k s0).max (.fin 0))
    else
      match d1_d2 s0 k t r sigma with
      | .error e => .error e
      | .ok (d1, d2) =>
        let df := (F64.mul r.neg t).exp
        .ok (F64.sub (F64.mul (F64.mul k df) (normal_cdf d2.neg)) (F64.mul s0 (normal_cdf d1.neg)))

/-- Function `option_price` of `black_scholes.rs`: dispatch on the kind. -/
def option_price (s0 k t r sigma : F64) (kind : OptionType) : FinanceResult F64 :=
  match kind with
  | OptionType.Call => call_price s0 k t r sigma
  | OptionType.Put => put_price s0 k t r sigma

/-- Real-number value of `normal_pdf` on a finite argument. -/
def normal_pdfR (x : ℝ) : ℝ := Real.exp (-0.5 * x * x) / Real.sqrt (2 * Real.pi)

/-- Real-number value of the Horner polynomial of `normal_cdf` at `t`,
with the coefficients b5, b4, b3, b2, b1 of the source. -/
def cdf_polyR (t : ℝ) : ℝ :=
  ((((1.330274429 * t + -1.821255978) * t + 1.781477937) * t
    + -0.356563782) * t + 0.319381530) * t

/-- Real-number value of `normal_cdf` on a finite argument. -/
def normal_cdfR (x : ℝ) : ℝ :=
  let t := 1 / (1 + 0.2316419 * |x|)
  let approx := 1 - normal_pdfR |x| * cdf_polyR t
  if 0 ≤ x then approx else 1 - approx

@[simp] lemma F64_abs_fin (x : ℝ) : (F64.fin x).abs = F64.fin |x| := rfl

@[simp] lemma F64_neg_fin (x : ℝ) : (F64.fin x).neg = F64.fin (-x) := rfl

@[simp] lemma F64_add_fin_fin (x y : ℝ) : F64.add (.fin x) (.fin y) = .fin (x + y) := rfl

@[simp] lemma F64_sub_fin_fin (x y : ℝ) : F64.sub (.fin x) (.fin y) = .fin (x - y) := by
  simp [F64.sub, sub_eq_add_neg]

@[simp] lemma F64_mul_fin_fin (x y : ℝ) : F64.mul (.fin x) (.fin y) = .fin (x * y) := rfl

lemma F64_div_fin_fin {y : ℝ} (x : ℝ) (h : y ≠ 0) :
    F64.div (.fin x) (.fin y) = .fin (x / y) := by
  simp [F64.div, h]

@[simp] lemma F64_exp_fin (x : ℝ) : (F64.fin x).exp = F64.fin (Real.exp x) := rfl

lemma F64_ln_fin {x : ℝ} (h : 0 < x) : (F64.fin x).ln = F64.fin (Real.log x) := by
  simp [F64.ln, h]

lemma F64_sqrt_fin {x : ℝ} (h : 0 ≤ x) : (F64.fin x).sqrt = F64.fin (Real.sqrt x) := by
  simp [F64.sqrt, h]

@[simp] lemma F64_max_fin_fin (x y : ℝ) : (F64.fin x).max (.fin y) = .fin (Max.max x y) := rfl

@[simp] lemma F64_le_fin_fin (x y : ℝ) : F64.le (.fin x) (.fin y) ↔ x ≤ y := Iff.rfl

@[simp] lemma F64_lt_fin_fin (x y : ℝ) : F64.lt (.fin x) (.fin y) ↔ x < y := Iff.rfl

@[simp] lemma F64_fin_inj (x y : ℝ) : (F64.fin x = F64.fin y) ↔ x = y := by
  constructor
  · intro h
    cases h
    rfl
  · intro h
    rw [h]

/-- On a finite argument `normal_pdf` is `normal_pdfR`. -/
lemma normal_pdf_fin (x : ℝ) : normal_pdf (.fin x) = .fin (normal_pdfR x) := by
  have h2pi : (0 : ℝ) < 2 * Real.pi := by positivity
  rw [normal_pdf, normal_pdfR, F64_mul_fin_fin, F64_mul_fin_fin, F64_exp_fin,
    F64_mul_fin_fin, F64_sqrt_fin h2pi.le,
    F64_div_fin_fin _ (Real.sqrt_ne_zero'.mpr h2pi)]

/-- On a finite argument `normal_cdf` is `normal_cdfR`. -/
lemma normal_cdf_fin (x : ℝ) : normal_cdf (.fin x) = .fin (normal_cdfR x) := by
  have hden : (0 : ℝ) < 1 + 0.2316419 * |x| := by positivity
  rw [normal_cdf, normal_cdfR]
  simp only [F64_abs_fin, F64_mul_fin_fin, F64_add_fin_fin,
    F64_div_fin_fin _ hden.ne', normal_pdf_fin, F64_sub_fin_fin, F64_le_fin_fin,
    F64_mul_fin_fin, cdf_polyR]
  split_ifs <;> rfl

/-- IEEE evaluation of `normal_cdf` at positive infinity: the reciprocal
`t` is zero, the polynomial factor is zero, the pdf factor is zero, so
the approximation is exactly one. -/
lemma normal_cdf_posinf : normal_cdf (.inf true) = .fin 1 := by
  have h2pi : (0 : ℝ) ≤ 2 * Real.pi := by positivity
  have hpi : Real.sqrt Real.pi ≠ 0 := ne_of_gt (Real.sqrt_pos.mpr Real.pi_pos)
  rw [normal_cdf]
  norm_num [F64.abs, F64.mul, F64.add, F64.div, F64.exp, F64.sqrt, F64.le,
    F64.sub, F64.neg, normal_pdf, h2pi, hpi]

/-- IEEE evaluation of `normal_cdf` at negative infinity: the reflection
branch gives exactly zero. -/
lemma normal_cdf_neginf : normal_cdf (.inf false) = .fin 0 := by
  have h2pi : (0 : ℝ) ≤ 2 * Real.pi := by positivity
  have hpi : Real.sqrt Real.pi ≠ 0 := ne_of_gt (Real.sqrt_pos.mpr Real.pi_pos)
  rw [normal_cdf]
  norm_num [F64.abs, F64.mul, F64.add, F64.div, F64.exp, F64.sqrt, F64.le,
    F64.sub, F64.neg, normal_pdf, h2pi, hpi]

/-- Validation succeeds on finite inputs with positive prices,
non-negative maturity and non-negative volatility. -/
lemma validate_inputs_fin_ok {s0 k t sigma : ℝ} (r : ℝ)
    (hs : 0 < s0) (hk : 0 < k) (ht : 0 ≤ t) (hsig : 0 ≤ sigma) :
    validate_inputs (.fin s0) (.fin k) (.fin t) (.fin r) (.fin sigma) = .ok () := by
  rw [validate_inputs]
  norm_num [F64.is_finite, F64.le, F64.lt, not_le.mpr hs, not_le.mpr hk,
    not_lt.mpr ht, not_lt.mpr hsig]

/-- Exact classification of the outcomes of `validate_inputs`. -/
lemma validate_inputs_spec (s0 k t r sigma : F64) :
    (validate_inputs s0 k t r sigma = .error FinanceError.InvalidMonetaryValue ↔
      (¬ s0.is_finite = true ∨ ¬ k.is_finite = true ∨ ¬ t.is_finite = true ∨
        ¬ r.is_finite = true ∨ ¬ sigma.is_finite = true ∨
        F64.le s0 (.fin 0) ∨ F64.le k (.fin 0)))
    ∧ (validate_inputs s0 k t r sigma = .error FinanceError.InvalidPeriods ↔
      (s0.is_finite = true ∧ k.is_finite = true ∧ t.is_finite = true ∧
        r.is_finite = true ∧ sigma.is_finite = true ∧
        ¬ F64.le s0 (.fin 0) ∧ ¬ F64.le k (.fin 0) ∧ F64.lt t (.fin 0)))
    ∧ (validate_inputs s0 k t r sigma = .error FinanceError.InvalidInterestRate ↔
      (s0.is_finite = true ∧ k.is_finite = true ∧ t.is_finite = true ∧
        r.is_finite = true ∧ sigma.is_finite = true ∧
        ¬ F64.le s0 (.fin 0) ∧ ¬ F64.le k (.fin 0) ∧ ¬ F64.lt t (.fin 0) ∧
        F64.lt sigma (.fin 0)))
    ∧ (validate_inputs s0 k t r sigma = .ok () ↔
      (s0.is_finite = true ∧ k.is_finite = true ∧ t.is_finite = true ∧
        r.is_finite = true ∧ sigma.is_finite = true ∧
        ¬ F64.le s0 (.fin 0) ∧ ¬ F64.le k (.fin 0) ∧ ¬ F64.lt t (.fin 0) ∧
        ¬ F64.lt sigma (.fin 0))) := by
  rw [validate_inputs]
  split_ifs with h1 h2 h3 h4 <;>
    simp only [Bool.or_eq_true, Bool.not_eq_true', Bool.eq_false_iff] at h1 <;>
    refine ⟨?_, ?_, ?_, ?_⟩ <;>
    simp only [Except.error.injEq, Except.ok.injEq, reduceCtorEq, false_iff,
      true_iff, iff_true, iff_false] <;>
    tauto

/-- The only source of errors of `d1_d2` is `validate_inputs`. -/
lemma d1_d2_error_iff (s0 k t r sigma : F64) (e : FinanceError) :
    d1_d2 s0 k t r sigma = .error e ↔ validate_inputs s0 k t r sigma = .error e := by
  unfold d1_d2
  cases hv : validate_inputs s0 k t r sigma with
  | error e2 => simp
  | ok u => split_ifs <;> simp

/-- After successful validation `d1_d2` always succeeds. -/
lemma d1_d2_ok_of_validate {s0 k t r sigma : F64} {u : Unit}
    (hv : validate_inputs s0 k t r sigma = .ok u) :
    ∃ pr, d1_d2 s0 k t r sigma = .ok pr := by
  unfold d1_d2
  rw [hv]
  split_ifs <;> exact ⟨_, rfl⟩

/-- The only source of errors of `call_price` is `validate_inputs`. -/
lemma call_price_error_iff (s0 k t r sigma : F64) (e : FinanceError) :
    call_price s0 k t r sigma = .error e ↔ validate_inputs s0 k t r sigma = .error e := by
  unfold call_price
  cases hv : validate_inputs s0 k t r sigma with
  | error e2 => simp
  | ok u =>
    obtain ⟨pr, hpr⟩ := d1_d2_ok_of_validate hv
    rw [hpr]
    cases pr
    split_ifs <;> simp

/-- The only source of errors of `put_price` is `validate_inputs`. -/
lemma put_price_error_iff (s0 k t r sigma : F64) (e : FinanceError) :
    put_price s0 k t r sigma = .error e ↔ validate_inputs s0 k t r sigma = .error e := by
  unfold put_price
  cases hv : validate_inputs s0 k t r sigma with
  | error e2 => simp
  | ok u =>
    obtain ⟨pr, hpr⟩ := d1_d2_ok_of_validate hv
    rw [hpr]
    cases pr
    split_ifs <;> simp

/-- An error produced by `validate_inputs` is never `DivisionByZero` and
never `InvalidInput`. -/
lemma validate_inputs_error_mem {s0 k t r sigma : F64} {e : FinanceError}
    (h : validate_inputs s0 k t r sigma = .error e) :
    e = FinanceError.InvalidMonetaryValue ∨ e = FinanceError.InvalidPeriods ∨
      e = FinanceError.InvalidInterestRate := by
  unfold validate_inputs at h
  split_ifs at h <;> simp_all

/-- Reduction of `call_price` and `put_price` in the expiry branch
`t < EPS_TIME` on validated finite inputs. -/
lemma prices_expiry {s0 k t sigma : ℝ} (r : ℝ)
    (hs : 0 < s0) (hk : 0 < k) (ht : 0 ≤ t) (hsig : 0 ≤ sigma)
    (hte : t < EPS_TIME) :
    call_price (.fin s0) (.fin k) (.fin t) (.fin r) (.fin sigma) =
      .ok (.fin (Max.max (s0 - k) 0)) ∧
    put_price (.fin s0) (.fin k) (.fin t) (.fin r) (.fin sigma) =
      .ok (.fin (Max.max (k - s0) 0)) := by
  unfold call_price put_price
  rw [validate_inputs_fin_ok r hs hk ht hsig]
  simp only [F64_lt_fin_fin, if_pos hte, F64_sub_fin_fin, F64_max_fin_fin]
  exact ⟨by trivial, by trivial⟩

/-- The positive lower bound of `EPS_TIME` and `EPS_VOL`. -/
lemma EPS_pos : (0 : ℝ) < EPS_TIME ∧ (0 : ℝ) < EPS_VOL := by
  norm_num [EPS_TIME, EPS_VOL]

/-- Reduction of `d1_d2` in the zero-volatility branch on validated
finite inputs: a degenerate pair driven by the sign of
`ln(s0 / k) + r * t`. -/
lemma d1_d2_zero_vol {s0 k t sigma : ℝ} (r : ℝ)
    (hs : 0 < s0) (hk : 0 < k) (htl : EPS_TIME ≤ t) (hsig : 0 ≤ sigma)
    (hsv : sigma < EPS_VOL) :
    d1_d2 (.fin s0) (.fin k) (.fin t) (.fin r) (.fin sigma) =
      .ok (if 0 < Real.log (s0 / k) + r * t then (F64.inf true, F64.inf true)
        else if Real.log (s0 / k) + r * t < 0 then (F64.inf false, F64.inf false)
        else (F64.fin 0, F64.fin 0)) := by
  have ht : 0 ≤ t := le_trans EPS_pos.1.le htl
  unfold d1_d2
  rw [validate_inputs_fin_ok r hs hk ht hsig]
  simp only [F64_div_fin_fin s0 hk.ne', F64_ln_fin (div_pos hs hk),
    F64_mul_fin_fin, F64_add_fin_fin, F64_lt_fin_fin,
    if_neg (not_lt.mpr htl), if_pos hsv]
  split_ifs <;> rfl

/-- Reduction of `d1_d2` in the regular branch on validated finite
inputs. -/
lemma d1_d2_main {s0 k t sigma : ℝ} (r : ℝ)
    (hs : 0 < s0) (hk : 0 < k) (htl : EPS_TIME ≤ t) (hsl : EPS_VOL ≤ sigma) :
    d1_d2 (.fin s0) (.fin k) (.fin t) (.fin r) (.fin sigma) =
      .ok (.fin ((Real.log (s0 / k) + (r + 0.5 * sigma * sigma) * t) /
            (sigma * Real.sqrt t)),
          .fin ((Real.log (s0 / k) + (r + 0.5 * sigma * sigma) * t) /
            (sigma * Real.sqrt t) - sigma * Real.sqrt t)) := by
  have ht : 0 < t := lt_of_lt_of_le EPS_pos.1 htl
  have hsig : 0 < sigma := lt_of_lt_of_le EPS_pos.2 hsl
  have hst : sigma * Real.sqrt t ≠ 0 :=
    (mul_pos hsig (Real.sqrt_pos.mpr ht)).ne'
  unfold d1_d2
  rw [validate_inputs_fin_ok r hs hk ht.le hsig.le]
  simp only [F64_div_fin_fin s0 hk.ne', F64_ln_fin (div_pos hs hk),
    F64_sqrt_fin ht.le, F64_mul_fin_fin, F64_add_fin_fin,
    F64_div_fin_fin _ hst, F64_sub_fin_fin, F64_lt_fin_fin,
    if_neg (not_lt.mpr htl), if_neg (not_lt.mpr hsl)]

/-- Reduction of `call_price` outside the expiry branch, given the
value of `d1_d2`. -/
lemma call_price_formula {s0 k t sigma : ℝ} (r : ℝ) {d1f d2f : F64}
    (hs : 0 < s0) (hk : 0 < k) (htl : EPS_TIME ≤ t) (hsig : 0 ≤ sigma)
    (hd : d1_d2 (.fin s0) (.fin k) (.fin t) (.fin r) (.fin sigma) = .ok (d1f, d2f)) :
    call_price (.fin s0) (.fin k) (.fin t) (.fin r) (.fin sigma) =
      .ok (F64.sub (F64.mul (.fin s0) (normal_cdf d1f))
        (F64.mul (F64.mul (.fin k) (.fin (Real.exp (-r * t)))) (normal_cdf d2f))) := by
  have ht : 0 ≤ t := le_trans EPS_pos.1.le htl
  unfold call_price
  rw [validate_inputs_fin_ok r hs hk ht hsig]
  simp only [F64_lt_fin_fin, if_neg (not_lt.mpr htl), hd, F64_neg_fin,
    F64_mul_fin_fin, F64_exp_fin]

/-- Reduction of `put_price` outside the expiry branch, given the value
of `d1_d2`. -/
lemma put_price_formula {s0 k t sigma : ℝ} (r : ℝ) {d1f d2f : F64}
    (hs : 0 < s0) (hk : 0 < k) (htl : EPS_TIME ≤ t) (hsig : 0 ≤ sigma)
    (hd : d1_d2 (.fin s0) (.fin k) (.fin t) (.fin r) (.fin sigma) = .ok (d1f, d2f)) :
    put_price (.fin s0) (.fin k) (.fin t) (.fin r) (.fin sigma) =
      .ok (F64.sub (F64.mul (F64.mul (.fin k) (.fin (Real.exp (-r * t)))) (normal_cdf d2f.neg))
        (F64.mul (.fin s0) (normal_cdf d1f.neg))) := by
  have ht : 0 ≤ t := le_trans EPS_pos.1.le htl
  unfold put_price
  rw [validate_inputs_fin_ok r hs hk ht hsig]
  simp only [F64_lt_fin_fin, if_neg (not_lt.mpr htl), hd, F64_neg_fin,
    F64_mul_fin_fin, F64_exp_fin]

/-- The Horner polynomial of the approximation is positive on `(0, 1]`. -/
lemma cdf_polyR_pos {t : ℝ} (h0 : 0 < t) (h1 : t ≤ 1) : 0 < cdf_polyR t := by
  have hq : 0 < 1.330274429 * t ^ 4 - 1.821255978 * t ^ 3 + 1.781477937 * t ^ 2
      - 0.356563782 * t + 0.319381530 := by
    nlinarith [sq_nonneg (t * (1 - t)), sq_nonneg (t - 1/5), sq_nonneg (t * t),
      sq_nonneg t, h0.le, h1]
  have hrw : cdf_polyR t = t * (1.330274429 * t ^ 4 - 1.821255978 * t ^ 3
      + 1.781477937 * t ^ 2 - 0.356563782 * t + 0.319381530) := by
    unfold cdf_polyR
    ring
  rw [hrw]
  exact mul_pos h0 hq

/-- The Horner polynomial of the approximation is below 2.2 on `[0, 1]`. -/
lemma cdf_polyR_lt {t : ℝ} (h0 : 0 ≤ t) (h1 : t ≤ 1) : cdf_polyR t < 2.2 := by
  have hcube : 0 ≤ (t * t * (t * t)) * (1.821255978 - 1.330274429 * t) := by
    have : (0:ℝ) ≤ 1.821255978 - 1.330274429 * t := by nlinarith
    positivity
  unfold cdf_polyR
  nlinarith [hcube, mul_nonneg h0 h0, mul_nonneg (mul_nonneg h0 h0) h0,
    sq_nonneg (1 - t), sq_nonneg t]

/-- The model pdf is positive. -/
lemma normal_pdfR_pos (x : ℝ) : 0 < normal_pdfR x := by
  unfold normal_pdfR
  have h2pi : (0:ℝ) < 2 * Real.pi := by positivity
  exact div_pos (Real.exp_pos _) (Real.sqrt_pos.mpr h2pi)

/-- The model pdf is at most its value at zero. -/
lemma normal_pdfR_le (x : ℝ) : normal_pdfR x ≤ 1 / Real.sqrt (2 * Real.pi) := by
  unfold normal_pdfR
  have h2pi : (0:ℝ) < 2 * Real.pi := by positivity
  have hs : 0 < Real.sqrt (2 * Real.pi) := Real.sqrt_pos.mpr h2pi
  have hexp : Real.exp (-0.5 * x * x) ≤ 1 := by
    rw [Real.exp_le_one_iff]
    nlinarith [sq_nonneg x]
  exact div_le_div_of_nonneg_right hexp hs.le

/-- A crude lower bound on the square root of two pi. -/
lemma sqrt_two_pi_gt_22 : (2.2 : ℝ) < Real.sqrt (2 * Real.pi) := by
  have hpi := Real.pi_gt_three
  rw [show (2.2:ℝ) = Real.sqrt (2.2 ^ 2) from (Real.sqrt_sq (by norm_num)).symm]
  apply Real.sqrt_lt_sqrt (by norm_num)
  nlinarith

/-- The value of `normal_cdfR` lies strictly between 0 and 1 for every
finite argument. -/
lemma normal_cdfR_range (x : ℝ) : 0 < normal_cdfR x ∧ normal_cdfR x < 1 := by
  have hy : (0:ℝ) ≤ |x| := abs_nonneg x
  have hden : (0:ℝ) < 1 + 0.2316419 * |x| := by positivity
  have ht0 : 0 < 1 / (1 + 0.2316419 * |x|) := by positivity
  have ht1 : 1 / (1 + 0.2316419 * |x|) ≤ 1 := by
    rw [div_le_one hden]
    nlinarith
  have hpoly0 := cdf_polyR_pos ht0 ht1
  have hpolylt := cdf_polyR_lt ht0.le ht1
  have hpdf0 := normal_pdfR_pos |x|
  have hpdfle := normal_pdfR_le |x|
  have hs : 0 < Real.sqrt (2 * Real.pi) := by positivity
  have hsgt := sqrt_two_pi_gt_22
  have hprodpos : 0 < normal_pdfR |x| * cdf_polyR (1 / (1 + 0.2316419 * |x|)) :=
    mul_pos hpdf0 hpoly0
  have hprodlt : normal_pdfR |x| * cdf_polyR (1 / (1 + 0.2316419 * |x|)) < 1 := by
    have h1 : normal_pdfR |x| * cdf_polyR (1 / (1 + 0.2316419 * |x|)) ≤
        (1 / Real.sqrt (2 * Real.pi)) * cdf_polyR (1 / (1 + 0.2316419 * |x|)) :=
      mul_le_mul_of_nonneg_right hpdfle hpoly0.le
    have h2 : (1 / Real.sqrt (2 * Real.pi)) * cdf_polyR (1 / (1 + 0.2316419 * |x|)) <
        (1 / Real.sqrt (2 * Real.pi)) * 2.2 :=
      mul_lt_mul_of_pos_left hpolylt (by positivity)
    have h3 : (1 / Real.sqrt (2 * Real.pi)) * 2.2 < 1 := by
      rw [div_mul_eq_mul_div, one_mul, div_lt_one hs]
      exact hsgt
    linarith
  simp only [normal_cdfR]
  split_ifs <;> constructor <;> linarith

/-- Reflection: for a negative argument the model cdf is exactly one
minus its value at the opposite argument. -/
lemma normal_cdfR_reflect {x : ℝ} (hx : x < 0) :
    normal_cdfR x = 1 - normal_cdfR (-x) := by
  simp only [normal_cdfR, abs_neg]
  rw [if_neg (not_le.mpr hx), if_pos (by linarith : (0:ℝ) ≤ -x)]

/-- For a nonzero argument the two reflected values of the model cdf sum
to exactly one. -/
lemma normal_cdfR_sum {x : ℝ} (hx : x ≠ 0) :
    normal_cdfR x + normal_cdfR (-x) = 1 := by
  rcases lt_or_gt_of_ne hx with h | h
  · rw [normal_cdfR_reflect h]
    ring
  · rw [normal_cdfR_reflect (by linarith : -x < 0), neg_neg]
    ring

/-- Closed form of the model cdf at zero. -/
lemma normal_cdfR_zero :
    normal_cdfR 0 = 1 - 1 / Real.sqrt (2 * Real.pi) * 1.253314136 := by
  have hp : cdf_polyR (1 / (1 + 0.2316419 * |(0:ℝ)|)) = 1.253314136 := by
    norm_num [cdf_polyR]
  have hpdf : normal_pdfR |(0:ℝ)| = 1 / Real.sqrt (2 * Real.pi) := by
    norm_num [normal_pdfR]
  simp only [normal_cdfR, hp, hpdf]
  norm_num

/-- Two-sided rational bounds on the square root of two pi, from the
twenty-digit bounds on pi. -/
lemma sqrt_two_pi_bounds :
    (2.50662827457 : ℝ) < Real.sqrt (2 * Real.pi) ∧
      Real.sqrt (2 * Real.pi) < 2.50662827464 := by
  have hlo := Real.pi_gt_d20
  have hhi := Real.pi_lt_d20
  constructor
  · rw [show (2.50662827457:ℝ) = Real.sqrt (2.50662827457 ^ 2) from
      (Real.sqrt_sq (by norm_num)).symm]
    apply Real.sqrt_lt_sqrt (by norm_num)
    nlinarith
  · rw [show (2.50662827464:ℝ) = Real.sqrt (2.50662827464 ^ 2) from
      (Real.sqrt_sq (by norm_num)).symm]
    apply Real.sqrt_lt_sqrt (by positivity)
    nlinarith

/-- Tight bounds on the model cdf at zero: it exceeds one half by
between 5e-10 and 5.5e-10. -/
lemma normal_cdfR_zero_bounds :
    1 / 2 + 5e-10 < normal_cdfR 0 ∧ normal_cdfR 0 < 1 / 2 + 5.5e-10 := by
  obtain ⟨hc1, hc2⟩ := sqrt_two_pi_bounds
  have hs : (0:ℝ) < Real.sqrt (2 * Real.pi) := by positivity
  rw [normal_cdfR_zero]
  have hq1 : 1 / Real.sqrt (2 * Real.pi) * 1.253314136 <
      1 / (2.50662827457 : ℝ) * 1.253314136 := by
    apply mul_lt_mul_of_pos_right _ (by norm_num)
    apply one_div_lt_one_div_of_lt (by norm_num) hc1
  have hq2 : 1 / (2.50662827464 : ℝ) * 1.253314136 <
      1 / Real.sqrt (2 * Real.pi) * 1.253314136 := by
    apply mul_lt_mul_of_pos_right _ (by norm_num)
    apply one_div_lt_one_div_of_lt hs hc2
  constructor
  · nlinarith
  · nlinarith

/-- Prices in the zero-volatility branch when `ln(s0 / k) + r * t` is
positive: both degenerate cdf values are one. -/
lemma prices_zero_vol_pos {s0 k t sigma : ℝ} (r : ℝ)
    (hs : 0 < s0) (hk : 0 < k) (htl : EPS_TIME ≤ t) (hsig : 0 ≤ sigma)
    (hsv : sigma < EPS_VOL) (hnum : 0 < Real.log (s0 / k) + r * t) :
    call_price (.fin s0) (.fin k) (.fin t) (.fin r) (.fin sigma) =
      .ok (.fin (s0 - k * Real.exp (-r * t))) ∧
    put_price (.fin s0) (.fin k) (.fin t) (.fin r) (.fin sigma) = .ok (.fin 0) := by
  have hd := d1_d2_zero_vol r hs hk htl hsig hsv
  rw [if_pos hnum] at hd
  constructor
  · rw [call_price_formula r hs hk htl hsig hd, normal_cdf_posinf]
    simp only [F64_mul_fin_fin, F64_sub_fin_fin, Except.ok.injEq, F64_fin_inj]
    ring
  · rw [put_price_formula r hs hk htl hsig hd]
    have hn : (F64.inf true).neg = F64.inf false := rfl
    rw [hn, normal_cdf_neginf]
    simp only [F64_mul_fin_fin, F64_sub_fin_fin, Except.ok.injEq, F64_fin_inj]
    ring

/-- Prices in the zero-volatility branch when `ln(s0 / k) + r * t` is
negative: both degenerate cdf values are zero. -/
lemma prices_zero_vol_neg {s0 k t sigma : ℝ} (r : ℝ)
    (hs : 0 < s0) (hk : 0 < k) (htl : EPS_TIME ≤ t) (hsig : 0 ≤ sigma)
    (hsv : sigma < EPS_VOL) (hnum : Real.log (s0 / k) + r * t < 0) :
    call_price (.fin s0) (.fin k) (.fin t) (.fin r) (.fin sigma) = .ok (.fin 0) ∧
    put_price (.fin s0) (.fin k) (.fin t) (.fin r) (.fin sigma) =
      .ok (.fin (k * Real.exp (-r * t) - s0)) := by
  have hd := d1_d2_zero_vol r hs hk htl hsig hsv
  rw [if_neg (asymm hnum), if_pos hnum] at hd
  constructor
  · rw [call_price_formula r hs hk htl hsig hd, normal_cdf_neginf]
    simp only [F64_mul_fin_fin, F64_sub_fin_fin, Except.ok.injEq, F64_fin_inj]
    ring
  · rw [put_price_formula r hs hk htl hsig hd]
    have hn : (F64.inf false).neg = F64.inf true := rfl
    rw [hn, normal_cdf_posinf]
    simp only [F64_mul_fin_fin, F64_sub_fin_fin, Except.ok.injEq, F64_fin_inj]
    ring

/-- Prices in the regular branch, in terms of the real-valued model cdf
at the real d1 and d2. -/
lemma prices_main {s0 k t sigma : ℝ} (r : ℝ)
    (hs : 0 < s0) (hk : 0 < k) (htl : EPS_TIME ≤ t) (hsl : EPS_VOL ≤ sigma) :
    call_price (.fin s0) (.fin k) (.fin t) (.fin r) (.fin sigma) =
      .ok (.fin (s0 * normal_cdfR ((Real.log (s0 / k) + (r + 0.5 * sigma * sigma) * t) /
          (sigma * Real.sqrt t)) -
        k * Real.exp (-r * t) * normal_cdfR ((Real.log (s0 / k) +
          (r + 0.5 * sigma * sigma) * t) / (sigma * Real.sqrt t) - sigma * Real.sqrt t))) ∧
    put_price (.fin s0) (.fin k) (.fin t) (.fin r) (.fin sigma) =
      .ok (.fin (k * Real.exp (-r * t) * normal_cdfR (-((Real.log (s0 / k) +
          (r + 0.5 * sigma * sigma) * t) / (sigma * Real.sqrt t) - sigma * Real.sqrt t)) -
        s0 * normal_cdfR (-((Real.log (s0 / k) + (r + 0.5 * sigma * sigma) * t) /
          (sigma * Real.sqrt t))))) := by
  have hsig : 0 ≤ sigma := le_trans EPS_pos.2.le hsl
  have hd := d1_d2_main r hs hk htl hsl
  constructor
  · rw [call_price_formula r hs hk htl hsig hd, normal_cdf_fin, normal_cdf_fin]
    simp only [F64_mul_fin_fin, F64_sub_fin_fin]
  · rw [put_price_formula r hs hk htl hsig hd]
    simp only [F64_neg_fin, normal_cdf_fin, F64_mul_fin_fin, F64_sub_fin_fin]

/-- C2: `validate_inputs` rejects exactly as specified: it returns
`InvalidMonetaryValue` iff some input is non-finite or `s0 ≤ 0` or
`k ≤ 0`; otherwise `InvalidPeriods` iff `t < 0`; otherwise
`InvalidInterestRate` iff `sigma < 0`; otherwise it succeeds.  Every
public entry point (`d1_d2`, `call_price`, `put_price`, `option_price`)
fails with an error exactly when `validate_inputs` fails with that same
error. -/
theorem C2_validation_gate (s0 k t r sigma : F64) :
    (validate_inputs s0 k t r sigma = .error FinanceError.InvalidMonetaryValue ↔
      (¬ s0.is_finite = true ∨ ¬ k.is_finite = true ∨ ¬ t.is_finite = true ∨
        ¬ r.is_finite = true ∨ ¬ sigma.is_finite = true ∨
        F64.le s0 (.fin 0) ∨ F64.le k (.fin 0)))
    ∧ (validate_inputs s0 k t r sigma = .error FinanceError.InvalidPeriods ↔
      (s0.is_finite = true ∧ k.is_finite = true ∧ t.is_finite = true ∧
        r.is_finite = true ∧ sigma.is_finite = true ∧
        ¬ F64.le s0 (.fin 0) ∧ ¬ F64.le k (.fin 0) ∧ F64.lt t (.fin 0)))
    ∧ (validate_inputs s0 k t r sigma = .error FinanceError.InvalidInterestRate ↔
      (s0.is_finite = true ∧ k.is_finite = true ∧ t.is_finite = true ∧
        r.is_finite = true ∧ sigma.is_finite = true ∧
        ¬ F64.le s0 (.fin 0) ∧ ¬ F64.le k (.fin 0) ∧ ¬ F64.lt t (.fin 0) ∧
        F64.lt sigma (.fin 0)))
    ∧ (validate_inputs s0 k t r sigma = .ok () ↔
      (s0.is_finite = true ∧ k.is_finite = true ∧ t.is_finite = true ∧
        r.is_finite = true ∧ sigma.is_finite = true ∧
        ¬ F64.le s0 (.fin 0) ∧ ¬ F64.le k (.fin 0) ∧ ¬ F64.lt t (.fin 0) ∧
        ¬ F64.lt sigma (.fin 0)))
    ∧ (∀ e, d1_d2 s0 k t r sigma = .error e ↔
        validate_inputs s0 k t r sigma = .error e)
    ∧ (∀ e, call_price s0 k t r sigma = .error e ↔
        validate_inputs s0 k t r sigma = .error e)
    ∧ (∀ e, put_price s0 k t r sigma = .error e ↔
        validate_inputs s0 k t r sigma = .error e)
    ∧ (∀ kind e, option_price s0 k t r sigma kind = .error e ↔
        validate_inputs s0 k t r sigma = .error e) := by
  obtain ⟨h1, h2, h3, h4⟩ := validate_inputs_spec s0 k t r sigma
  refine ⟨h1, h2, h3, h4, d1_d2_error_iff s0 k t r sigma,
    call_price_error_iff s0 k t r sigma, put_price_error_iff s0 k t r sigma, ?_⟩
  intro kind e
  cases kind
  · exact call_price_error_iff s0 k t r sigma e
  · exact put_price_error_iff s0 k t r sigma e

/-- C3: on every finite argument, `normal_cdf` produces a finite value
that lies strictly between 0 and 1. -/
theorem C3_cdf_range (x : ℝ) :
    normal_cdf (.fin x) = .fin (normal_cdfR x) ∧
      0 < normal_cdfR x ∧ normal_cdfR x < 1 :=
  ⟨normal_cdf_fin x, (normal_cdfR_range x).1, (normal_cdfR_range x).2⟩

/-- C8: `option_price` dispatches to `call_price` on `Call` and to
`put_price` on `Put`, returning the identical result for every input,
valid or not. -/
theorem C8_dispatch (s0 k t r sigma : F64) :
    option_price s0 k t r sigma OptionType.Call = call_price s0 k t r sigma ∧
    option_price s0 k t r sigma OptionType.Put = put_price s0 k t r sigma :=
  ⟨rfl, rfl⟩

/-- C9: none of `d1_d2`, `call_price`, `put_price`, `option_price` can
return `DivisionByZero` (or `InvalidInput`): every error they return is
one of the three validation errors. -/
theorem C9_no_division_by_zero (s0 k t r sigma : F64) :
    (∀ e, d1_d2 s0 k t r sigma = .error e →
      e = FinanceError.InvalidMonetaryValue ∨ e = FinanceError.InvalidPeriods ∨
        e = FinanceError.InvalidInterestRate)
    ∧ (∀ e, call_price s0 k t r sigma = .error e →
      e = FinanceError.InvalidMonetaryValue ∨ e = FinanceError.InvalidPeriods ∨
        e = FinanceError.InvalidInterestRate)
    ∧ (∀ e, put_price s0 k t r sigma = .error e →
      e = FinanceError.InvalidMonetaryValue ∨ e = FinanceError.InvalidPeriods ∨
        e = FinanceError.InvalidInterestRate)
    ∧ (∀ kind e, option_price s0 k t r sigma kind = .error e →
      e = FinanceError.InvalidMonetaryValue ∨ e = FinanceError.InvalidPeriods ∨
        e = FinanceError.InvalidInterestRate) := by
  refine ⟨fun e h => validate_inputs_error_mem ((d1_d2_error_iff s0 k t r sigma e).mp h),
    fun e h => validate_inputs_error_mem ((call_price_error_iff s0 k t r sigma e).mp h),
    fun e h => validate_inputs_error_mem ((put_price_error_iff s0 k t r sigma e).mp h),
    ?_⟩
  intro kind e h
  cases kind
  · exact validate_inputs_error_mem ((call_price_error_iff s0 k t r sigma e).mp h)
  · exact validate_inputs_error_mem ((put_price_error_iff s0 k t r sigma e).mp h)

/-- Witness for C9 at a concrete rejected input. -/
theorem C9_no_division_by_zero_witness :
    FinanceError.InvalidMonetaryValue = FinanceError.InvalidMonetaryValue ∨
      FinanceError.InvalidMonetaryValue = FinanceError.InvalidPeriods ∨
        FinanceError.InvalidMonetaryValue = FinanceError.InvalidInterestRate := by
  refine (C9_no_division_by_zero (.fin (-1)) (.fin 100) (.fin 1) (.fin 0) (.fin 0)).1
    FinanceError.InvalidMonetaryValue ?_
  rw [d1_d2, validate_inputs]
  norm_num [F64.is_finite, F64.le]

/-- C4, counterexample: `normal_cdf` at zero is not exactly one half;
the approximation exceeds one half by about 5.2e-10. -/
theorem C4_counterexample : normal_cdf (.fin 0) ≠ .fin 0.5 := by
  rw [normal_cdf_fin]
  intro h
  rw [F64_fin_inj] at h
  have hb := normal_cdfR_zero_bounds
  rw [h] at hb
  norm_num at hb

/-- C4, amended: `normal_cdf` at zero is finite and equals one half to
within 1e-6 (indeed to within 5.5e-10), though not exactly. -/
theorem C4_cdf_zero_near_half :
    normal_cdf (.fin 0) = .fin (normal_cdfR 0) ∧ |normal_cdfR 0 - 1/2| < 1e-6 := by
  refine ⟨normal_cdf_fin 0, ?_⟩
  obtain ⟨hlo, hhi⟩ := normal_cdfR_zero_bounds
  rw [abs_of_nonneg (by linarith)]
  linarith

/-- C5, counterexample: at the finite argument 0 the sum
`normal_cdf 0 + normal_cdf (-0)` misses 1.0 by more than 1e-9 (it is
about 1 + 1.05e-9). -/
theorem C5_counterexample :
    normal_cdf (.fin 0) = .fin (normal_cdfR 0) ∧
      ¬ |normal_cdfR 0 + normal_cdfR (-0) - 1| ≤ 1e-9 := by
  refine ⟨normal_cdf_fin 0, ?_⟩
  obtain ⟨hlo, hhi⟩ := normal_cdfR_zero_bounds
  rw [neg_zero, abs_of_nonneg (by linarith)]
  intro h
  linarith

/-- C5, amended: for every finite nonzero `x` the reflected values of
`normal_cdf` sum to exactly 1; for `x < 0` the result is exactly one
minus the value at `-x`; at `x = 0` the sum is within 1.1e-9 of 1. -/
theorem C5_reflection (x : ℝ) :
    normal_cdf (.fin x) = .fin (normal_cdfR x) ∧
    (x ≠ 0 → normal_cdfR x + normal_cdfR (-x) = 1) ∧
    (x < 0 → normal_cdfR x = 1 - normal_cdfR (-x)) ∧
    |normal_cdfR 0 + normal_cdfR (-0) - 1| ≤ 1.1e-9 := by
  obtain ⟨hlo, hhi⟩ := normal_cdfR_zero_bounds
  refine ⟨normal_cdf_fin x, fun h => normal_cdfR_sum h,
    fun h => normal_cdfR_reflect h, ?_⟩
  rw [neg_zero, abs_of_nonneg (by linarith)]
  linarith

/-- Witness for C5 at the concrete argument -1. -/
theorem C5_reflection_witness :
    normal_cdf (.fin (-1)) = .fin (normal_cdfR (-1)) ∧
    normal_cdfR (-1) + normal_cdfR (-(-1)) = 1 ∧
    normal_cdfR (-1) = 1 - normal_cdfR (-(-1)) := by
  have h := C5_reflection (-1)
  exact ⟨h.1, h.2.1 (by norm_num), h.2.2.1 (by norm_num)⟩

/-- C6: on validated inputs with `t < EPS_TIME` the call and put prices
are the intrinsic values `max (s0 - k) 0` and `max (k - s0) 0`. -/
theorem C6_expiry_shortcut (s0 k t r sigma : ℝ) (hs : 0 < s0) (hk : 0 < k)
    (ht : 0 ≤ t) (hsig : 0 ≤ sigma) (hte : t < EPS_TIME) :
    call_price (.fin s0) (.fin k) (.fin t) (.fin r) (.fin sigma) =
      .ok (.fin (Max.max (s0 - k) 0)) ∧
    put_price (.fin s0) (.fin k) (.fin t) (.fin r) (.fin sigma) =
      .ok (.fin (Max.max (k - s0) 0)) :=
  prices_expiry r hs hk ht hsig hte

/-- Witness for C6 at a concrete input just below expiry. -/
theorem C6_expiry_shortcut_witness :
    call_price (.fin 120) (.fin 110) (.fin 1e-16) (.fin (1/20)) (.fin (1/5)) =
      .ok (.fin (Max.max (120 - 110) 0)) ∧
    put_price (.fin 120) (.fin 110) (.fin 1e-16) (.fin (1/20)) (.fin (1/5)) =
      .ok (.fin (Max.max (110 - 120) 0)) :=
  C6_expiry_shortcut 120 110 1e-16 (1/20) (1/5) (by norm_num) (by norm_num)
    (by norm_num) (by norm_num) (by norm_num [EPS_TIME])

/-- C7: on validated inputs with `t ≥ EPS_TIME` and `sigma < EPS_VOL`,
`d1_d2` returns the degenerate pair driven by the sign of
`ln(s0 / k) + r * t`: both components positive infinity, both negative
infinity, or both zero. -/
theorem C7_zero_vol_d1d2 (s0 k t r sigma : ℝ) (hs : 0 < s0) (hk : 0 < k)
    (htl : EPS_TIME ≤ t) (hsig : 0 ≤ sigma) (hsv : sigma < EPS_VOL) :
    (0 < Real.log (s0 / k) + r * t →
      d1_d2 (.fin s0) (.fin k) (.fin t) (.fin r) (.fin sigma) =
        .ok (.inf true, .inf true)) ∧
    (Real.log (s0 / k) + r * t < 0 →
      d1_d2 (.fin s0) (.fin k) (.fin t) (.fin r) (.fin sigma) =
        .ok (.inf false, .inf false)) ∧
    (Real.log (s0 / k) + r * t = 0 →
      d1_d2 (.fin s0) (.fin k) (.fin t) (.fin r) (.fin sigma) =
        .ok (.fin 0, .fin 0)) := by
  have hd := d1_d2_zero_vol r hs hk htl hsig hsv
  refine ⟨fun h => ?_, fun h => ?_, fun h => ?_⟩
  · rwa [if_pos h] at hd
  · rwa [if_neg (asymm h), if_pos h] at hd
  · rwa [if_neg (by rw [h]; exact lt_irrefl 0), if_neg (by rw [h]; exact lt_irrefl 0)] at hd

/-- Witness for C7 at the input of the zero-volatility unit test. -/
theorem C7_zero_vol_d1d2_witness :
    d1_d2 (.fin 110) (.fin 100) (.fin 1) (.fin (1/20)) (.fin 0) =
      .ok (.inf true, .inf true) := by
  have hl : (0 : ℝ) < Real.log (110 / 100) := Real.log_pos (by norm_num)
  exact (C7_zero_vol_d1d2 110 100 1 (1/20) 0 (by norm_num) (by norm_num)
    (by norm_num [EPS_TIME]) (by norm_num) (by norm_num [EPS_VOL])).1 (by nlinarith)

/-- C10: `normal_cdf` is exactly 1 at positive infinity and exactly 0 at
negative infinity, and consequently in the zero-volatility regime the
prices are exact finite values: when `ln(s0 / k) + r * t > 0` the call is
exactly `s0 - k * exp(-r t)` and the put exactly 0, and when it is
negative the call is exactly 0 and the put exactly
`k * exp(-r t) - s0`. -/
theorem C10_infinity_exact :
    normal_cdf (.inf true) = .fin 1 ∧ normal_cdf (.inf false) = .fin 0 ∧
    ∀ s0 k t r sigma : ℝ, 0 < s0 → 0 < k → EPS_TIME ≤ t → 0 ≤ sigma →
      sigma < EPS_VOL →
      (0 < Real.log (s0 / k) + r * t →
        call_price (.fin s0) (.fin k) (.fin t) (.fin r) (.fin sigma) =
          .ok (.fin (s0 - k * Real.exp (-r * t))) ∧
        put_price (.fin s0) (.fin k) (.fin t) (.fin r) (.fin sigma) =
          .ok (.fin 0)) ∧
      (Real.log (s0 / k) + r * t < 0 →
        call_price (.fin s0) (.fin k) (.fin t) (.fin r) (.fin sigma) =
          .ok (.fin 0) ∧
        put_price (.fin s0) (.fin k) (.fin t) (.fin r) (.fin sigma) =
          .ok (.fin (k * Real.exp (-r * t) - s0))) := by
  refine ⟨normal_cdf_posinf, normal_cdf_neginf, ?_⟩
  intro s0 k t r sigma hs hk htl hsig hsv
  exact ⟨fun h => prices_zero_vol_pos r hs hk htl hsig hsv h,
    fun h => prices_zero_vol_neg r hs hk htl hsig hsv h⟩

/-- Witness for C10 at the input of the zero-volatility price test. -/
theorem C10_infinity_exact_witness :
    call_price (.fin 110) (.fin 100) (.fin 1) (.fin (1/20)) (.fin 0) =
      .ok (.fin (110 - 100 * Real.exp (-(1/20) * 1))) ∧
    put_price (.fin 110) (.fin 100) (.fin 1) (.fin (1/20)) (.fin 0) =
      .ok (.fin 0) := by
  have hl : (0 : ℝ) < Real.log (110 / 100) := Real.log_pos (by norm_num)
  exact (C10_infinity_exact.2.2 110 100 1 (1/20) 0 (by norm_num) (by norm_num)
    (by norm_num [EPS_TIME]) (by norm_num) (by norm_num [EPS_VOL])).1 (by nlinarith)

/-- C1, counterexample: the input `(1, 1e15, 5e-13, 1, 1)` passes
validation and has `t > 0`, both prices succeed, yet
`call - put = s0 - k` differs from `s0 - k * exp(-r t)` by about 0.5,
far beyond the 1e-9 tolerance: the expiry branch taken for
`t < EPS_TIME` ignores discounting. -/
theorem C1_counterexample :
    call_price (.fin 1) (.fin 1e15) (.fin 5e-13) (.fin 1) (.fin 1) = .ok (.fin 0) ∧
    put_price (.fin 1) (.fin 1e15) (.fin 5e-13) (.fin 1) (.fin 1) =
      .ok (.fin (1e15 - 1)) ∧
    ¬ |(0 - (1e15 - 1) : ℝ) - (1 - 1e15 * Real.exp (-1 * 5e-13))| ≤ 1e-9 := by
  have hp := @prices_expiry 1 1e15 5e-13 1 1
    (by norm_num) (by norm_num) (by norm_num) (by norm_num) (by norm_num [EPS_TIME])
  have hmax1 : Max.max ((1 : ℝ) - 1e15) 0 = 0 := max_eq_right (by norm_num)
  have hmax2 : Max.max ((1e15 : ℝ) - 1) 0 = 1e15 - 1 := max_eq_left (by norm_num)
  refine ⟨by rw [hp.1, hmax1], by rw [hp.2, hmax2], ?_⟩
  have hkey : Real.exp (-1 * 5e-13 : ℝ) ≤ 1 / (1 + 5e-13) := by
    rw [show (-1 * 5e-13 : ℝ) = -(5e-13) by norm_num, Real.exp_neg,
      inv_eq_one_div]
    refine one_div_le_one_div_of_le (by norm_num) ?_
    have h := Real.add_one_le_exp (5e-13 : ℝ)
    linarith
  have hpos : (0 : ℝ) < Real.exp (-1 * 5e-13) := Real.exp_pos _
  have hlt : (1 : ℝ) / (1 + 5e-13) < 1 := by norm_num
  intro habs
  have h1 : (0 - (1e15 - 1) : ℝ) - (1 - 1e15 * Real.exp (-1 * 5e-13)) =
      1e15 * (Real.exp (-1 * 5e-13) - 1) := by ring
  rw [h1, abs_of_nonpos (by nlinarith)] at habs
  nlinarith

/-- C1, amended: on validated inputs with `t ≥ EPS_TIME` where neither
computed d-value is the finite zero, both prices succeed and
`call - put` equals `s0 - k * exp(-r t)` exactly.  (Below `EPS_TIME`
the difference is exactly `s0 - k`, and when d1 or d2 is exactly zero
the cdf-pair sum deviates from 1 by about 1.05e-9, so the claimed
uniform 1e-9 tolerance fails there.) -/
theorem C1_parity (s0 k t r sigma : ℝ) (d1f d2f : F64)
    (hs : 0 < s0) (hk : 0 < k) (htl : EPS_TIME ≤ t) (hsig : 0 ≤ sigma)
    (hd : d1_d2 (.fin s0) (.fin k) (.fin t) (.fin r) (.fin sigma) = .ok (d1f, d2f))
    (h1 : d1f ≠ .fin 0) (h2 : d2f ≠ .fin 0) :
    (call_price (.fin s0) (.fin k) (.fin t) (.fin r) (.fin sigma)).bind
      (fun c => (put_price (.fin s0) (.fin k) (.fin t) (.fin r) (.fin sigma)).map
        fun q => F64.sub c q) = .ok (.fin (s0 - k * Real.exp (-r * t))) := by
  rcases lt_or_le sigma EPS_VOL with hsv | hsl
  · have hdz := d1_d2_zero_vol r hs hk htl hsig hsv
    rcases lt_trichotomy (0 : ℝ) (Real.log (s0 / k) + r * t) with hn | hn | hn
    · obtain ⟨hc, hq⟩ := prices_zero_vol_pos r hs hk htl hsig hsv hn
      rw [hc, hq]
      simp only [Except.bind, Except.map, F64_sub_fin_fin, Except.ok.injEq,
        F64_fin_inj]
      ring
    · rw [if_neg (by rw [← hn]; exact lt_irrefl 0),
        if_neg (by rw [← hn]; exact lt_irrefl 0)] at hdz
      rw [hd] at hdz
      exact absurd (congrArg Prod.fst (Except.ok.inj hdz)) h1
    · obtain ⟨hc, hq⟩ := prices_zero_vol_neg r hs hk htl hsig hsv hn
      rw [hc, hq]
      simp only [Except.bind, Except.map, F64_sub_fin_fin, Except.ok.injEq,
        F64_fin_inj]
      ring
  · have hdm := d1_d2_main r hs hk htl hsl
    rw [hd] at hdm
    have hpair := Except.ok.inj hdm
    have hd1 : d1f = .fin ((Real.log (s0 / k) + (r + 0.5 * sigma * sigma) * t) /
        (sigma * Real.sqrt t)) := congrArg Prod.fst hpair
    have hd2 : d2f = .fin ((Real.log (s0 / k) + (r + 0.5 * sigma * sigma) * t) /
        (sigma * Real.sqrt t) - sigma * Real.sqrt t) := congrArg Prod.snd hpair
    have hd1v : (Real.log (s0 / k) + (r + 0.5 * sigma * sigma) * t) /
        (sigma * Real.sqrt t) ≠ 0 := by
      intro hc
      rw [hc] at hd1
      exact h1 hd1
    have hd2v : (Real.log (s0 / k) + (r + 0.5 * sigma * sigma) * t) /
        (sigma * Real.sqrt t) - sigma * Real.sqrt t ≠ 0 := by
      intro hc
      rw [hc] at hd2
      exact h2 hd2
    obtain ⟨hc, hq⟩ := prices_main r hs hk htl hsl
    rw [hc, hq]
    simp only [Except.bind, Except.map, F64_sub_fin_fin, Except.ok.injEq,
      F64_fin_inj]
    have hsum1 := normal_cdfR_sum hd1v
    have hsum2 := normal_cdfR_sum hd2v
    linear_combination s0 * hsum1 - k * Real.exp (-r * t) * hsum2

/-- Witness for C1 at the input of the parity unit test, where
`d1 = 0.35` and `d2 = 0.15`. -/
theorem C1_parity_witness :
    (call_price (.fin 100) (.fin 100) (.fin 1) (.fin (1/20)) (.fin (1/5))).bind
      (fun c => (put_price (.fin 100) (.fin 100) (.fin 1) (.fin (1/20)) (.fin (1/5))).map
        fun q => F64.sub c q) = .ok (.fin (100 - 100 * Real.exp (-(1/20) * 1))) := by
  have hd : d1_d2 (.fin 100) (.fin 100) (.fin 1) (.fin (1/20)) (.fin (1/5)) =
      .ok (.fin (7/20), .fin (3/20)) := by
    rw [d1_d2_main (1/20) (by norm_num) (by norm_num) (by norm_num [EPS_TIME])
      (by norm_num [EPS_VOL])]
    norm_num [Real.sqrt_one, Real.log_one]
  exact C1_parity 100 100 1 (1/20) (1/5) (.fin (7/20)) (.fin (3/20))
    (by norm_num) (by norm_num) (by norm_num [EPS_TIME]) (by norm_num) hd
    (by simp) (by simp)

end
